import Mathlib

set_option maxRecDepth 8192

/-!
Verification development for the little-elf-frontend browser extension.

JavaScript strings are modelled as lists of UTF-16 code units (`JSString`),
so that `.length`, `.substring`, `.lastIndexOf` and surrogate-pair questions
match the semantics of the source. Each definition below is a shallow
embedding of the correspondingly named function of the source files
`src/content/content.js`, `src/sidepanel/sidepanel.js` and
`src/background/background.js`.
-/

/-- A JavaScript string: a sequence of UTF-16 code units. -/
abbrev JSString := List Nat

/-- UTF-16 encoding of one Unicode scalar value, as used by JS strings. -/
def utf16Units (c : Char) : List Nat :=
  let n := c.toNat
  if n < 0x10000 then [n]
  else [0xD800 + (n - 0x10000) / 0x400, 0xDC00 + (n - 0x10000) % 0x400]

/-- Convert a Lean string literal into the JS code-unit model. -/
def jstr (s : String) : JSString :=
  (s.data.map utf16Units).flatten

/-- High-surrogate test (0xD800 - 0xDBFF). -/
def isHighSurrogate (c : Nat) : Bool :=
  0xD800 ≤ c && c ≤ 0xDBFF

/-- Low-surrogate test (0xDC00 - 0xDFFF). -/
def isLowSurrogate (c : Nat) : Bool :=
  0xDC00 ≤ c && c ≤ 0xDFFF

/-- JS String.prototype.startsWith over Lean strings. -/
def jsStartsWith (s pre : String) : Bool :=
  decide (pre.data <+: s.data)

/-- MAX_CONTENT_LENGTH from content.js. -/
def MAX_CONTENT_LENGTH : Nat := 50000

/-- Code-unit constants used by the pipeline. -/
def tabU : Nat := 9
def lfU : Nat := 10
def crU : Nat := 13
def spaceU : Nat := 32
def periodU : Nat := 46

/-- Stage `.replace(/\t/g, ' ')` of extractCleanContent. -/
def replaceTabs (l : JSString) : JSString :=
  l.map (fun c => if c == tabU then spaceU else c)

/-- Stage `.replace(/\r\n/g, '\n')` of extractCleanContent:
left-to-right, non-overlapping replacement of the pair CR LF by LF. -/
def normalizeCrlf : JSString → JSString
  | [] => []
  | [x] => [x]
  | x :: y :: xs =>
    if x == crU && y == lfU then lfU :: normalizeCrlf xs
    else x :: normalizeCrlf (y :: xs)

/-- Stage `.replace(/\r/g, '\n')` of extractCleanContent. -/
def replaceCr (l : JSString) : JSString :=
  l.map (fun c => if c == crU then lfU else c)

/-- Stage `.replace(/ {2,}/g, ' ')` of extractCleanContent: every maximal
run of two or more spaces becomes a single space. -/
def collapseSpaces : JSString → JSString
  | [] => []
  | [x] => [x]
  | x :: y :: xs =>
    if x == spaceU && y == spaceU then collapseSpaces (y :: xs)
    else x :: collapseSpaces (y :: xs)

/-- Stage `.replace(/\n{3,}/g, '\n\n')` of extractCleanContent: every maximal
run of three or more newlines becomes two newlines. -/
def squeezeNewlines : JSString → JSString
  | x :: y :: z :: xs =>
    if x == lfU && y == lfU && z == lfU then squeezeNewlines (y :: z :: xs)
    else x :: squeezeNewlines (y :: z :: xs)
  | l => l

/-- The character class removed by the JS `String.prototype.trim`. -/
def isJsSpace (c : Nat) : Bool :=
  c == spaceU || c == tabU || c == lfU || c == crU || c == 11 || c == 12 || c == 160

/-- Strip leading JS whitespace. -/
def frontTrim (l : JSString) : JSString :=
  l.dropWhile isJsSpace

/-- Strip trailing JS whitespace. -/
def backTrim (l : JSString) : JSString :=
  (l.reverse.dropWhile isJsSpace).reverse

/-- JS `String.prototype.trim`: strip whitespace from both ends. -/
def trimJs (l : JSString) : JSString :=
  backTrim (frontTrim l)

/-- Stages `.split('\n').map(line => line.trim()).filter(line => line.length > 0).join('\n').trim()`
of extractCleanContent, applied after the replace stages. -/
def joinCleanLines (l : JSString) : JSString :=
  trimJs (List.intercalate [lfU]
    (((List.splitOn lfU l).map trimJs).filter (fun line => line.length > 0)))

/-- The whole whitespace-normalization pipeline of extractCleanContent
(content.js lines 214-224), in source order. -/
def cleanWhitespace (l : JSString) : JSString :=
  joinCleanLines (squeezeNewlines (collapseSpaces (replaceCr (normalizeCrlf (replaceTabs l)))))

/-- JS `String.prototype.lastIndexOf` for a single code unit. -/
def lastIndexOf (l : JSString) (c : Nat) : Option Nat :=
  match l with
  | [] => none
  | x :: xs =>
    match lastIndexOf xs c with
    | some i => some (i + 1)
    | none => if x == c then some 0 else none

/-- The length-limiting step of extractCleanContent (content.js lines 227-233):
cut at MAX_CONTENT_LENGTH code units; if the last period of the cut lies at an
index strictly greater than MAX_CONTENT_LENGTH - 500, end at that period. -/
def truncateContent (textContent : JSString) : JSString :=
  if textContent.length > MAX_CONTENT_LENGTH then
    let t := textContent.take MAX_CONTENT_LENGTH
    match lastIndexOf t periodU with
    | some lastPeriod =>
      if lastPeriod > MAX_CONTENT_LENGTH - 500 then t.take (lastPeriod + 1) else t
    | none => t
  else textContent

/-- extractCleanContent (content.js): whitespace normalization followed by
the length limit. The raw DOM text is the argument. -/
def extractCleanContent (raw : JSString) : JSString :=
  truncateContent (cleanWhitespace raw)

/-- The final length guard of extractStructuredContent (content.js lines
268-270): `if (fullContent.length > MAX_CONTENT_LENGTH) substring(0, MAX)`. -/
def capContent (fullContent : JSString) : JSString :=
  if fullContent.length > MAX_CONTENT_LENGTH then fullContent.take MAX_CONTENT_LENGTH
  else fullContent

/-- extractStructuredContent (content.js lines 246-273): main text, optional
image-alt section, optional code section, re-cut to MAX_CONTENT_LENGTH. -/
def extractStructuredContent (raw : JSString) (imageAlts codeBlocks : List JSString) : JSString :=
  let mainContent := extractCleanContent raw
  let sections : List JSString :=
    [mainContent]
    ++ (if imageAlts.length > 0 then
          [jstr "\n\n[Images on this page:]\n" ++ List.intercalate (jstr "\n") imageAlts]
        else [])
    ++ (if codeBlocks.length > 0 then
          [jstr "\n\n[Code examples on this page:]\n"
             ++ List.intercalate (jstr "\n---\n") (codeBlocks.take 5)]
        else [])
  capContent sections.flatten

/-- A heading entry of a PageRecord. -/
structure Heading where
  level : Nat
  text : JSString
deriving DecidableEq, Repr

/-- The PageRecord-shaped object produced by extractPageData (content.js). -/
structure PageData where
  url : JSString
  title : JSString
  description : JSString
  headings : List Heading
  content : JSString
  timestamp : Nat
  contentLength : Nat
deriving DecidableEq, Repr

/-- extractPageData (content.js lines 279-296); the DOM-derived inputs
(raw main text, image alts, code blocks, metadata) are parameters. -/
def extractPageData (url title description : JSString) (headings : List Heading)
    (raw : JSString) (alts codes : List JSString) (timestamp : Nat) : PageData :=
  let content := extractStructuredContent raw alts codes
  { url := url, title := title, description := description, headings := headings,
    content := content, timestamp := timestamp, contentLength := content.length }

/-- A JavaScript value as read back from chrome.storage.local. -/
inductive JSValue where
  | bool (b : Bool)
  | num (n : Int)
  | str (s : String)
deriving DecidableEq, Repr

/-- isExtensionEnabled (content.js lines 71-79): a failed read yields true,
the key gives false only when the stored value is exactly the boolean false
(the source test is `result.elfEnabled !== false`). -/
def isExtensionEnabled (read : Except Unit (Option JSValue)) : Bool :=
  match read with
  | .error _ => true
  | .ok v => !(v == some (JSValue.bool false))

/-- The browser-internal URL test of runExtraction (content.js lines 329-334). -/
def isInternalUrl (url : String) : Bool :=
  jsStartsWith url "chrome://" || jsStartsWith url "chrome-extension://"
    || jsStartsWith url "about:" || jsStartsWith url "edge://"
    || jsStartsWith url "file://" || jsStartsWith url "moz-extension://"

/-- runExtraction (content.js lines 321-349): skip when disabled, skip
browser-internal URLs, otherwise produce the extracted page data. -/
def runExtraction (enabledRead : Except Unit (Option JSValue)) (url : String)
    (pageData : PageData) : Option PageData :=
  if !(isExtensionEnabled enabledRead) then none
  else if isInternalUrl url then none
  else some pageData

/-- The cap step makes any string at most MAX_CONTENT_LENGTH units long. -/
theorem capContent_length_le (l : JSString) : (capContent l).length ≤ MAX_CONTENT_LENGTH := by
  unfold capContent
  split
  · simp
  · omega

/-- The content field of extractPageData is the structured content. -/
theorem extractPageData_content (url title description : JSString) (headings : List Heading)
    (raw : JSString) (alts codes : List JSString) (timestamp : Nat) :
    (extractPageData url title description headings raw alts codes timestamp).content
      = extractStructuredContent raw alts codes := by
  unfold extractPageData
  dsimp only

/-- C3: for every page and every run of the extractor, the content field of
the produced PageRecord never exceeds 50000 UTF-16 code units. -/
theorem claim_C3_content_length_bounded
    (url title description : JSString) (headings : List Heading)
    (raw : JSString) (alts codes : List JSString) (timestamp : Nat) :
    (extractPageData url title description headings raw alts codes timestamp).content.length
      ≤ 50000 := by
  rw [extractPageData_content]
  exact capContent_length_le _

/-- C10: the content script is disabled exactly when the stored elfEnabled
value is the boolean false; an absent key or a failed storage read counts as
enabled, and extraction then proceeds on non-internal URLs. -/
theorem claim_C10_enabled_default
    : (∀ read : Except Unit (Option JSValue),
        isExtensionEnabled read = false ↔ read = .ok (some (JSValue.bool false)))
      ∧ (∀ (read : Except Unit (Option JSValue)) (url : String) (pd : PageData),
          (read = .error () ∨ read = .ok none) →
          runExtraction read url pd = if isInternalUrl url then none else some pd) := by
  constructor
  · intro read
    cases read with
    | error e => simp [isExtensionEnabled]
    | ok v =>
      cases v with
      | none => simp [isExtensionEnabled]
      | some jv =>
        cases jv with
        | bool b => cases b <;> simp [isExtensionEnabled]
        | num n => simp [isExtensionEnabled]
        | str s => simp [isExtensionEnabled]
  · intro read url pd h
    have henabled : isExtensionEnabled read = true := by
      rcases h with h | h <;> subst h <;> simp [isExtensionEnabled]
    simp [runExtraction, henabled]

/-- A concrete PageData value used by witness instantiations. -/
def samplePageData : PageData :=
  extractPageData (jstr "https://example.com") (jstr "Example") (jstr "") []
    (jstr "Hello world.") [] [] 0

/-- Witness for C10: a storage read that returns no stored value leaves the
extension enabled, and extraction proceeds on an ordinary https URL. -/
theorem claim_C10_enabled_default_witness :
    ((Except.ok none : Except Unit (Option JSValue)) = .error ()
        ∨ (Except.ok none : Except Unit (Option JSValue)) = .ok none)
      ∧ runExtraction (.ok none) "https://example.com" samplePageData
          = if isInternalUrl "https://example.com" then none else some samplePageData :=
  ⟨Or.inr rfl,
   claim_C10_enabled_default.2 (.ok none) "https://example.com" samplePageData (Or.inr rfl)⟩

theorem intercalate_nil_eq (s : List Nat) : List.intercalate s [] = [] := by
  simp [List.intercalate]

theorem intercalate_single (s p : List Nat) : List.intercalate s [p] = p := by
  simp [List.intercalate]

theorem intercalate_cons_cons (s p q : List Nat) (ps : List (List Nat)) :
    List.intercalate s (p :: q :: ps) = p ++ s ++ List.intercalate s (q :: ps) := by
  simp [List.intercalate, List.intersperse]

theorem memOfInfix {x : Nat} {l₁ l₂ : JSString} (h : l₁ <:+: l₂) (hx : x ∈ l₁) : x ∈ l₂ := by
  obtain ⟨u, v, rfl⟩ := h
  simp [hx]

theorem mem_intercalate_or {x : Nat} {s : List Nat} {ls : List (List Nat)}
    (hx : x ∈ List.intercalate s ls) : x ∈ s ∨ ∃ p ∈ ls, x ∈ p := by
  induction ls with
  | nil => simp [intercalate_nil_eq] at hx
  | cons p ps ih =>
    cases ps with
    | nil =>
      rw [intercalate_single] at hx
      exact Or.inr ⟨p, by simp, hx⟩
    | cons q qs =>
      rw [intercalate_cons_cons] at hx
      rcases List.mem_append.1 hx with h1 | h2
      · rcases List.mem_append.1 h1 with hp | hs
        · exact Or.inr ⟨p, by simp, hp⟩
        · exact Or.inl hs
      · rcases ih h2 with hs | ⟨r, hr, hxr⟩
        · exact Or.inl hs
        · exact Or.inr ⟨r, by simp [hr], hxr⟩

theorem infixIntercalateOfMem {s : List Nat} {ls : List (List Nat)} {p : List Nat}
    (hp : p ∈ ls) : p <:+: List.intercalate s ls := by
  induction ls with
  | nil => simp at hp
  | cons q qs ih =>
    cases qs with
    | nil =>
      simp at hp
      subst hp
      rw [intercalate_single]
    | cons r rs =>
      rw [intercalate_cons_cons]
      rcases List.mem_cons.1 hp with rfl | hmem
      · exact ⟨[], s ++ List.intercalate s (r :: rs), by simp⟩
      · obtain ⟨u, v, huv⟩ := ih hmem
        exact ⟨q ++ s ++ u, v, by simp [← huv]⟩

theorem splitOnPieceInfix {a : Nat} {l p : JSString} (hp : p ∈ List.splitOn a l) :
    p <:+: l := by
  have h := List.intercalate_splitOn l a
  have h2 : p <:+: List.intercalate [a] (List.splitOn a l) := infixIntercalateOfMem hp
  rwa [h] at h2

theorem sepNotMemSplitOnPiece {a : Nat} {l p : JSString} (hp : p ∈ List.splitOn a l) :
    a ∉ p := by
  induction l generalizing p with
  | nil =>
    rw [List.splitOn_nil] at hp
    simp at hp
    simp [hp]
  | cons x xs ih =>
    rw [List.splitOn, List.splitOnP_cons] at hp
    by_cases hxa : x == a
    · rw [if_pos hxa] at hp
      rcases List.mem_cons.1 hp with rfl | hmem
      · simp
      · exact ih hmem
    · rw [if_neg hxa] at hp
      rcases hq : List.splitOnP (· == a) xs with _ | ⟨h0, t0⟩
      · exact absurd hq (List.splitOnP_ne_nil _ _)
      · rw [hq] at hp
        simp only [List.modifyHead] at hp
        rcases List.mem_cons.1 hp with rfl | hmem
        · intro hmemp
          rcases List.mem_cons.1 hmemp with rfl | hmem0
          · exact hxa (by simp)
          · exact @ih h0 (by rw [List.splitOn, hq]; simp) hmem0
        · exact ih (by rw [List.splitOn, hq]; simp [hmem])

theorem frontTrim_idem (l : JSString) : frontTrim (frontTrim l) = frontTrim l :=
  List.dropWhile_idempotent _ _

theorem backTrim_idem (l : JSString) : backTrim (backTrim l) = backTrim l := by
  unfold backTrim
  simp [List.dropWhile_idempotent]

theorem backTrim_prefixOf (l : JSString) : backTrim l <+: l := by
  unfold backTrim
  rw [← List.reverse_suffix]
  simp [List.dropWhile_suffix]

theorem frontTrim_suffixOf (l : JSString) : frontTrim l <:+ l :=
  List.dropWhile_suffix _

theorem dropWhileLenLe (p : Nat → Bool) (l : JSString) :
    (List.dropWhile p l).length ≤ l.length :=
  (List.dropWhile_suffix p).sublist.length_le

theorem trimJs_infixOf (l : JSString) : trimJs l <:+: l := by
  obtain ⟨v, hv⟩ := backTrim_prefixOf (frontTrim l)
  obtain ⟨u, hu⟩ := frontTrim_suffixOf l
  exact ⟨u, v, by
    rw [List.append_assoc, show trimJs l = backTrim (frontTrim l) from rfl, hv, hu]⟩

theorem frontTrim_of_frontTrimmed {l : JSString} (h : frontTrim l = l) :
    frontTrim (backTrim l) = backTrim l := by
  rcases hb : backTrim l with _ | ⟨a, t⟩
  · simp [frontTrim]
  · obtain ⟨v, hv⟩ := backTrim_prefixOf l
    rw [hb] at hv
    have hhead : l.head? = some a := by
      rw [← hv]; simp
    have hna : ¬ isJsSpace a := by
      intro hws
      rcases l with _ | ⟨x, xs⟩
      · simp at hhead
      · simp at hhead
        subst hhead
        unfold frontTrim at h
        rw [List.dropWhile_cons_of_pos hws] at h
        have hlen := congrArg List.length h
        have hle := dropWhileLenLe isJsSpace xs
        simp at hlen
        omega
    unfold frontTrim
    rw [List.dropWhile_cons_of_neg hna]

theorem trimJs_idem (l : JSString) : trimJs (trimJs l) = trimJs l := by
  show backTrim (frontTrim (backTrim (frontTrim l))) = backTrim (frontTrim l)
  rw [frontTrim_of_frontTrimmed (frontTrim_idem l), backTrim_idem]

theorem tab_notMem_replaceTabs (l : JSString) : tabU ∉ replaceTabs l := by
  intro h
  rw [replaceTabs, List.mem_map] at h
  obtain ⟨c, hc, hval⟩ := h
  by_cases h9 : c == tabU
  · rw [if_pos h9] at hval
    simp [tabU, spaceU] at hval
  · rw [if_neg h9] at hval
    exact h9 (by simp [hval])

theorem mem_normalizeCrlf {x : Nat} {l : JSString} (h : x ∈ normalizeCrlf l) :
    x ∈ l ∨ x = lfU := by
  induction l using normalizeCrlf.induct with
  | case1 => simp [normalizeCrlf] at h
  | case2 y => 
    rw [normalizeCrlf] at h
    exact Or.inl h
  | case3 a b xs hab ih =>
    rw [normalizeCrlf, if_pos hab] at h
    rcases List.mem_cons.1 h with rfl | hmem
    · exact Or.inr rfl
    · rcases ih hmem with hx | hx
      · exact Or.inl (by simp [hx])
      · exact Or.inr hx
  | case4 a b xs hab ih =>
    rw [normalizeCrlf, if_neg hab] at h
    rcases List.mem_cons.1 h with rfl | hmem
    · exact Or.inl (by simp)
    · rcases ih hmem with hx | hx
      · exact Or.inl (by simp [List.mem_cons.1 hx])
      · exact Or.inr hx

theorem cr_notMem_replaceCr (l : JSString) : crU ∉ replaceCr l := by
  intro h
  rw [replaceCr, List.mem_map] at h
  obtain ⟨c, hc, hval⟩ := h
  by_cases h13 : c == crU
  · rw [if_pos h13] at hval
    simp [crU, lfU] at hval
  · rw [if_neg h13] at hval
    exact h13 (by simp [hval])

theorem mem_replaceCr {x : Nat} {l : JSString} (h : x ∈ replaceCr l) :
    x ∈ l ∨ x = lfU := by
  rw [replaceCr, List.mem_map] at h
  obtain ⟨c, hc, hval⟩ := h
  by_cases h13 : c == crU
  · rw [if_pos h13] at hval
    exact Or.inr hval.symm
  · rw [if_neg h13] at hval
    exact Or.inl (hval ▸ hc)

theorem mem_collapseSpaces {x : Nat} {l : JSString} (h : x ∈ collapseSpaces l) : x ∈ l := by
  induction l using collapseSpaces.induct with
  | case1 => simp [collapseSpaces] at h
  | case2 y =>
    rw [collapseSpaces] at h
    exact h
  | case3 a b xs hab ih =>
    rw [collapseSpaces, if_pos hab] at h
    exact List.mem_cons_of_mem _ (ih h)
  | case4 a b xs hab ih =>
    rw [collapseSpaces, if_neg hab] at h
    rcases List.mem_cons.1 h with rfl | hmem
    · exact List.mem_cons_self _ _
    · exact List.mem_cons_of_mem _ (ih hmem)

theorem mem_squeezeNewlines {x : Nat} {l : JSString} (h : x ∈ squeezeNewlines l) : x ∈ l := by
  induction l using squeezeNewlines.induct with
  | case1 a b c xs habc ih =>
    rw [squeezeNewlines, if_pos habc] at h
    exact List.mem_cons_of_mem _ (ih h)
  | case2 a b c xs habc ih =>
    rw [squeezeNewlines, if_neg habc] at h
    rcases List.mem_cons.1 h with rfl | hmem
    · exact List.mem_cons_self _ _
    · exact List.mem_cons_of_mem _ (ih hmem)
  | case3 l hl =>
    rw [squeezeNewlines] at h
    · exact h
    · exact hl

theorem mem_joinCleanLines {x : Nat} {l : JSString} (h : x ∈ joinCleanLines l) :
    x = lfU ∨ x ∈ l := by
  unfold joinCleanLines at h
  have h1 : x ∈ List.intercalate [lfU]
      (((List.splitOn lfU l).map trimJs).filter (fun line => line.length > 0)) :=
    memOfInfix (trimJs_infixOf _) h
  rcases mem_intercalate_or h1 with hs | ⟨q, hq, hxq⟩
  · exact Or.inl (by simpa using hs)
  · rcases List.mem_filter.1 hq with ⟨hq2, _⟩
    rcases List.mem_map.1 hq2 with ⟨p, hp, rfl⟩
    have hxp : x ∈ p := memOfInfix (trimJs_infixOf _) hxq
    exact Or.inr (memOfInfix (splitOnPieceInfix hp) hxp)

theorem tab_notMem_cleanWhitespace (l : JSString) : tabU ∉ cleanWhitespace l := by
  intro h
  unfold cleanWhitespace at h
  rcases mem_joinCleanLines h with h10 | h2
  · simp [tabU, lfU] at h10
  · have h3 := mem_collapseSpaces (mem_squeezeNewlines h2)
    rcases mem_replaceCr h3 with h4 | h10
    · rcases mem_normalizeCrlf h4 with h5 | h10
      · exact tab_notMem_replaceTabs l h5
      · simp [tabU, lfU] at h10
    · simp [tabU, lfU] at h10

theorem cr_notMem_cleanWhitespace (l : JSString) : crU ∉ cleanWhitespace l := by
  intro h
  unfold cleanWhitespace at h
  rcases mem_joinCleanLines h with h10 | h2
  · simp [crU, lfU] at h10
  · exact cr_notMem_replaceCr _ (mem_collapseSpaces (mem_squeezeNewlines h2))

/-- Relation holding between adjacent code units when they are not both spaces. -/
def notBothSpaces (a b : Nat) : Prop := a ≠ spaceU ∨ b ≠ spaceU

theorem collapseSpaces_headQ (l : JSString) :
    (collapseSpaces l).head? = l.head? := by
  induction l using collapseSpaces.induct with
  | case1 => rfl
  | case2 y => rfl
  | case3 a b xs hab ih =>
    rw [collapseSpaces, if_pos hab, ih]
    simp at hab
    simp [hab.1, hab.2]
  | case4 a b xs hab ih =>
    rw [collapseSpaces, if_neg hab]
    rfl

theorem collapseSpaces_chain (l : JSString) :
    List.Chain' notBothSpaces (collapseSpaces l) := by
  induction l using collapseSpaces.induct with
  | case1 => simp [collapseSpaces]
  | case2 y => simp [collapseSpaces]
  | case3 a b xs hab ih =>
    rw [collapseSpaces, if_pos hab]
    exact ih
  | case4 a b xs hab ih =>
    rw [collapseSpaces, if_neg hab]
    rw [List.chain'_cons']
    refine ⟨?_, ih⟩
    intro y hy
    rw [collapseSpaces_headQ] at hy
    simp at hy
    subst hy
    simp only [notBothSpaces]
    by_cases ha : a = spaceU
    · right
      intro hb
      exact hab (by simp [ha, hb])
    · exact Or.inl ha

theorem squeezeNewlines_headQ (l : JSString) :
    (squeezeNewlines l).head? = l.head? := by
  induction l using squeezeNewlines.induct with
  | case1 a b c xs habc ih =>
    rw [squeezeNewlines, if_pos habc, ih]
    simp at habc
    simp [habc.1.1, habc.1.2]
  | case2 a b c xs habc ih =>
    rw [squeezeNewlines, if_neg habc]
    rfl
  | case3 l hl =>
    rw [squeezeNewlines]
    exact hl

theorem squeezeNewlines_chain {l : JSString} (h : List.Chain' notBothSpaces l) :
    List.Chain' notBothSpaces (squeezeNewlines l) := by
  induction l using squeezeNewlines.induct with
  | case1 a b c xs habc ih =>
    rw [squeezeNewlines, if_pos habc]
    exact ih ((List.chain'_cons'.1 h).2)
  | case2 a b c xs habc ih =>
    rw [squeezeNewlines, if_neg habc]
    rw [List.chain'_cons']
    refine ⟨?_, ih ((List.chain'_cons'.1 h).2)⟩
    intro y hy
    rw [squeezeNewlines_headQ] at hy
    simp at hy
    subst hy
    exact (List.chain'_cons.1 h).1
  | case3 l hl =>
    rw [squeezeNewlines]
    · exact h
    · exact hl

theorem chain_intercalate {parts : List (List Nat)}
    (h : ∀ q ∈ parts, List.Chain' notBothSpaces q) :
    List.Chain' notBothSpaces (List.intercalate [lfU] parts) := by
  induction parts with
  | nil => simp [intercalate_nil_eq]
  | cons p ps ih =>
    cases ps with
    | nil =>
      rw [intercalate_single]
      exact h p (by simp)
    | cons q qs =>
      rw [intercalate_cons_cons]
      rw [List.append_assoc, List.chain'_append]
      refine ⟨h p (by simp), ?_, ?_⟩
      · rw [List.chain'_append]
        refine ⟨by simp, ih (fun r hr => h r (by simp [hr])), ?_⟩
        intro x hx y hy
        simp at hx
        subst hx
        exact Or.inl (by decide)
      · intro x hx y hy
        simp at hy
        subst hy
        exact Or.inr (by decide)

theorem chain_cleanWhitespace (l : JSString) :
    List.Chain' notBothSpaces (cleanWhitespace l) := by
  unfold cleanWhitespace joinCleanLines
  apply List.Chain'.infix _ (trimJs_infixOf _)
  apply chain_intercalate
  intro q hq
  rcases List.mem_filter.1 hq with ⟨hq2, _⟩
  rcases List.mem_map.1 hq2 with ⟨p, hp, rfl⟩
  have hE : List.Chain' notBothSpaces
      (squeezeNewlines (collapseSpaces (replaceCr (normalizeCrlf (replaceTabs l))))) :=
    squeezeNewlines_chain (collapseSpaces_chain _)
  exact hE.infix ((trimJs_infixOf p).trans (splitOnPieceInfix hp))

theorem frontTrim_eq_self_of_trimJs {q : JSString} (ht : trimJs q = q) :
    frontTrim q = q := by
  have h1 : (trimJs q).length ≤ (frontTrim q).length := by
    show (backTrim (frontTrim q)).length ≤ (frontTrim q).length
    unfold backTrim
    rw [List.length_reverse]
    calc (List.dropWhile isJsSpace (frontTrim q).reverse).length
        ≤ (frontTrim q).reverse.length := dropWhileLenLe _ _
      _ = (frontTrim q).length := List.length_reverse _
  have h2 : (frontTrim q).length ≤ q.length := dropWhileLenLe _ _
  rw [ht] at h1
  exact (frontTrim_suffixOf q).eq_of_length (by omega)

theorem backTrim_eq_self_of_trimJs {q : JSString} (ht : trimJs q = q) :
    backTrim q = q := by
  have hf := frontTrim_eq_self_of_trimJs ht
  show backTrim q = q
  calc backTrim q = backTrim (frontTrim q) := by rw [hf]
    _ = trimJs q := rfl
    _ = q := ht

theorem head_not_space_of_trimmed {q : JSString} (ht : trimJs q = q) (hne : q ≠ []) :
    ∃ a, q.head? = some a ∧ ¬ isJsSpace a := by
  have hf := frontTrim_eq_self_of_trimJs ht
  rcases q with _ | ⟨a, t⟩
  · exact absurd rfl hne
  · refine ⟨a, rfl, ?_⟩
    intro hws
    unfold frontTrim at hf
    rw [List.dropWhile_cons_of_pos hws] at hf
    have := congrArg List.length hf
    have hle := dropWhileLenLe isJsSpace t
    simp at this
    omega

theorem last_not_space_of_trimmed {q : JSString} (ht : trimJs q = q) (hne : q ≠ []) :
    ∃ a, q.getLast? = some a ∧ ¬ isJsSpace a := by
  have hb := backTrim_eq_self_of_trimJs ht
  have hrev : List.dropWhile isJsSpace q.reverse = q.reverse := by
    have := congrArg List.reverse hb
    unfold backTrim at this
    simpa using this
  rcases hq : q.reverse with _ | ⟨a, t⟩
  · exact absurd (by simpa using congrArg List.reverse hq) hne
  · refine ⟨a, ?_, ?_⟩
    · rw [← List.head?_reverse, hq]
      rfl
    · intro hws
      rw [hq, List.dropWhile_cons_of_pos hws] at hrev
      have := congrArg List.length hrev
      have hle := dropWhileLenLe isJsSpace t
      simp at this
      omega

theorem trimJs_eq_self_of_ends {q : JSString}
    (hh : ∀ a ∈ q.head?, ¬ isJsSpace a) (hl : ∀ a ∈ q.getLast?, ¬ isJsSpace a) :
    trimJs q = q := by
  have hf : frontTrim q = q := by
    rcases q with _ | ⟨a, t⟩
    · rfl
    · unfold frontTrim
      rw [List.dropWhile_cons_of_neg (hh a rfl)]
  have hbr : List.dropWhile isJsSpace q.reverse = q.reverse := by
    rcases hq : q.reverse with _ | ⟨a, t⟩
    · rfl
    · have ha : q.getLast? = some a := by rw [← List.head?_reverse, hq]; rfl
      rw [List.dropWhile_cons_of_neg (hl a ha)]
  show backTrim (frontTrim q) = q
  rw [hf]
  unfold backTrim
  rw [hbr, List.reverse_reverse]

theorem headQ_intercalate {q : List Nat} {qs : List (List Nat)} (hne : q ≠ []) :
    (List.intercalate [lfU] (q :: qs)).head? = q.head? := by
  cases qs with
  | nil => rw [intercalate_single]
  | cons r rs =>
    rw [intercalate_cons_cons, List.append_assoc, List.head?_append]
    rcases q with _ | ⟨a, t⟩
    · exact absurd rfl hne
    · rfl

theorem getLastQ_intercalate {parts : List (List Nat)}
    (hne : parts ≠ []) (hlast : ∀ r ∈ parts, r ≠ []) :
    (List.intercalate [lfU] parts).getLast? = (parts.getLast hne).getLast? := by
  induction parts with
  | nil => exact absurd rfl hne
  | cons p ps ih =>
    cases ps with
    | nil =>
      rw [intercalate_single]
      rfl
    | cons r rs =>
      rw [intercalate_cons_cons, List.getLast?_append, List.getLast?_append]
      have hrec := ih (by simp) (fun x hx => hlast x (by simp [hx]))
      rw [hrec]
      have hrne : (r :: rs).getLast (by simp) ≠ [] :=
        hlast _ (List.mem_cons_of_mem _ (List.getLast_mem _))
      rcases hrl : ((r :: rs).getLast (by simp)).getLast? with _ | a
      · exact absurd (List.getLast?_eq_none_iff.1 hrl) hrne
      · have hsame : (p :: r :: rs).getLast (by simp) = (r :: rs).getLast (by simp) := by
          rw [List.getLast_cons]
        rw [hsame, hrl]
        rfl

theorem cleanWhitespace_lines (l : JSString) :
    cleanWhitespace l = []
    ∨ ∀ p ∈ List.splitOn lfU (cleanWhitespace l), p ≠ [] ∧ trimJs p = p := by
  unfold cleanWhitespace joinCleanLines
  set E := squeezeNewlines (collapseSpaces (replaceCr (normalizeCrlf (replaceTabs l)))) with hE
  set parts := ((List.splitOn lfU E).map trimJs).filter (fun line => line.length > 0) with hparts
  have hfacts : ∀ r ∈ parts, r ≠ [] ∧ trimJs r = r ∧ lfU ∉ r := by
    intro r hr
    rcases List.mem_filter.1 hr with ⟨hr2, hrlen⟩
    rcases List.mem_map.1 hr2 with ⟨p, hp, rfl⟩
    refine ⟨?_, trimJs_idem p, ?_⟩
    · intro hnil
      rw [hnil] at hrlen
      simp at hrlen
    · intro hmem
      exact sepNotMemSplitOnPiece hp (memOfInfix (trimJs_infixOf p) hmem)
  rcases hp0 : parts with _ | ⟨q, qs⟩
  · left
    rw [intercalate_nil_eq]
    rfl
  · right
    rw [hp0] at hfacts
    have hqne : q ≠ [] := (hfacts q (by simp)).1
    have htrim : trimJs (List.intercalate [lfU] (q :: qs)) = List.intercalate [lfU] (q :: qs) := by
      apply trimJs_eq_self_of_ends
      · intro a ha
        rw [headQ_intercalate hqne] at ha
        obtain ⟨b, hb, hbws⟩ := head_not_space_of_trimmed (hfacts q (by simp)).2.1 hqne
        rw [hb] at ha
        simp at ha
        subst ha
        exact hbws
      · intro a ha
        have hlastne : ∀ r ∈ q :: qs, r ≠ [] := fun r hr => (hfacts r hr).1
        rw [getLastQ_intercalate (by simp) hlastne] at ha
        have hlmem : (q :: qs).getLast (by simp) ∈ q :: qs := List.getLast_mem _
        obtain ⟨b, hb, hbws⟩ := last_not_space_of_trimmed (hfacts _ hlmem).2.1 (hfacts _ hlmem).1
        rw [hb] at ha
        simp at ha
        subst ha
        exact hbws
    rw [htrim]
    have hsplit : List.splitOn lfU (List.intercalate [lfU] (q :: qs)) = q :: qs := by
      have := List.splitOn_intercalate (q :: qs) lfU
        (fun r hr => (hfacts r hr).2.2) (by simp)
      simpa using this
    rw [hsplit]
    intro p hp
    exact ⟨(hfacts p hp).1, (hfacts p hp).2.1⟩

theorem lastIndexOf_eq_none_of_notMem {l : JSString} {c : Nat} (h : c ∉ l) :
    lastIndexOf l c = none := by
  induction l with
  | nil => rfl
  | cons x xs ih =>
    rw [lastIndexOf]
    rw [ih (fun hm => h (List.mem_cons_of_mem _ hm))]
    rw [if_neg (by simp; intro he; exact h (by simp [he]))]

theorem lastIndexOf_append (l1 l2 : JSString) (c : Nat) :
    lastIndexOf (l1 ++ l2) c =
      match lastIndexOf l2 c with
      | some i => some (l1.length + i)
      | none => lastIndexOf l1 c := by
  induction l1 with
  | nil =>
    simp only [List.nil_append, List.length_nil]
    rcases lastIndexOf l2 c with _ | i <;> simp [lastIndexOf]
  | cons x xs ih =>
    rcases hl2 : lastIndexOf l2 c with _ | i
    · rw [List.cons_append, lastIndexOf, ih, hl2]
      rw [show lastIndexOf (x :: xs) c = (match lastIndexOf xs c with
        | some i => some (i + 1)
        | none => if x == c then some 0 else none) from rfl]
    · rw [List.cons_append, lastIndexOf, ih, hl2]
      simp only [List.length_cons]
      have h1 : xs.length + i + 1 = xs.length + 1 + i := by omega
      simp [h1]

theorem notMem_of_lastIndexOf_eq_none {l : JSString} {c : Nat}
    (h : lastIndexOf l c = none) : c ∉ l := by
  induction l with
  | nil => simp
  | cons x xs ih =>
    rw [lastIndexOf] at h
    rcases hxs : lastIndexOf xs c with _ | j
    · rw [hxs] at h
      simp only at h
      intro hmem
      rcases List.mem_cons.1 hmem with rfl | hm
      · rw [if_pos (by simp)] at h
        exact absurd h (by simp)
      · exact ih hxs hm
    · rw [hxs] at h
      simp at h
  
theorem lastIndexOf_some_spec {l : JSString} {c : Nat} {i : Nat}
    (h : lastIndexOf l c = some i) :
    l[i]? = some c ∧ ∀ j, i < j → j < l.length → l[j]? ≠ some c := by
  induction l generalizing i with
  | nil => simp [lastIndexOf] at h
  | cons x xs ih =>
    rw [lastIndexOf] at h
    rcases hxs : lastIndexOf xs c with _ | j
    · rw [hxs] at h
      simp only at h
      by_cases hxc : x == c
      · rw [if_pos hxc] at h
        have hi : i = 0 := by
          have := h
          simp at this
          omega
        subst hi
        refine ⟨by simp; exact Nat.eq_of_beq_eq_true (by simpa using hxc), ?_⟩
        intro j hj hjlen hget
        rcases j with _ | j'
        · omega
        · rw [List.getElem?_cons_succ] at hget
          exact notMem_of_lastIndexOf_eq_none hxs (List.getElem?_mem hget)
      · rw [if_neg hxc] at h
        simp at h
    · rw [hxs] at h
      simp only [Option.some.injEq] at h
      subst h
      obtain ⟨hget, hafter⟩ := ih hxs
      refine ⟨by simpa using hget, ?_⟩
      intro k hk hklen hgetk
      rcases k with _ | k'
      · omega
      · rw [List.getElem?_cons_succ] at hgetk
        exact hafter k' (by omega) (by simp at hklen; omega) hgetk

/-- Ends-with-a-split-pair test: the result ends with a code unit that forms
a surrogate pair with the next unit of the original string. -/
def splitsSurrogatePair (orig res : JSString) : Bool :=
  match res.getLast?, orig[res.length]? with
  | some hi, some lo => isHighSurrogate hi && isLowSurrogate lo
  | _, _ => false

/-- An input whose unit 49999 and 50000 form a surrogate pair (an emoji). -/
def cex4Surrogate : JSString := List.replicate 49999 97 ++ [0xD83D, 0xDE00]

/-- An input whose only period sits exactly 500 units before the cut end. -/
def cex4Boundary : JSString := List.replicate 49500 97 ++ (periodU :: List.replicate 500 97)

theorem cex4Surrogate_length : cex4Surrogate.length = 50001 := by
  rw [cex4Surrogate, List.length_append, List.length_replicate, List.length_cons,
    List.length_cons, List.length_nil]

theorem cex4Surrogate_take :
    cex4Surrogate.take MAX_CONTENT_LENGTH = List.replicate 49999 97 ++ [0xD83D] := by
  rw [cex4Surrogate, List.take_append_eq_append_take, List.take_replicate, List.length_replicate]
  norm_num [MAX_CONTENT_LENGTH]

theorem truncateContent_cases (s : JSString) (h : MAX_CONTENT_LENGTH < s.length) :
    truncateContent s
      = (match lastIndexOf (s.take MAX_CONTENT_LENGTH) periodU with
        | some lastPeriod =>
          if lastPeriod > MAX_CONTENT_LENGTH - 500
          then (s.take MAX_CONTENT_LENGTH).take (lastPeriod + 1)
          else s.take MAX_CONTENT_LENGTH
        | none => s.take MAX_CONTENT_LENGTH) := by
  unfold truncateContent
  rw [if_pos h]

theorem truncateContent_of_none {s : JSString} (h : MAX_CONTENT_LENGTH < s.length)
    (hn : lastIndexOf (s.take MAX_CONTENT_LENGTH) periodU = none) :
    truncateContent s = s.take MAX_CONTENT_LENGTH := by
  rw [truncateContent_cases s h, hn]

theorem truncateContent_of_some_le {s : JSString} {i : Nat}
    (h : MAX_CONTENT_LENGTH < s.length)
    (hs : lastIndexOf (s.take MAX_CONTENT_LENGTH) periodU = some i)
    (hle : i ≤ MAX_CONTENT_LENGTH - 500) :
    truncateContent s = s.take MAX_CONTENT_LENGTH := by
  rw [truncateContent_cases s h, hs]
  show (if i > MAX_CONTENT_LENGTH - 500
    then (s.take MAX_CONTENT_LENGTH).take (i + 1)
    else s.take MAX_CONTENT_LENGTH) = s.take MAX_CONTENT_LENGTH
  rw [if_neg (by omega)]

theorem truncateContent_of_some_gt {s : JSString} {i : Nat}
    (h : MAX_CONTENT_LENGTH < s.length)
    (hs : lastIndexOf (s.take MAX_CONTENT_LENGTH) periodU = some i)
    (hgt : MAX_CONTENT_LENGTH - 500 < i) :
    truncateContent s = (s.take MAX_CONTENT_LENGTH).take (i + 1) := by
  rw [truncateContent_cases s h, hs]
  show (if i > MAX_CONTENT_LENGTH - 500
    then (s.take MAX_CONTENT_LENGTH).take (i + 1)
    else s.take MAX_CONTENT_LENGTH) = (s.take MAX_CONTENT_LENGTH).take (i + 1)
  rw [if_pos (by omega)]

theorem cex4Surrogate_truncate :
    truncateContent cex4Surrogate = List.replicate 49999 97 ++ [0xD83D] := by
  have hnomem : periodU ∉ cex4Surrogate.take MAX_CONTENT_LENGTH := by
    rw [cex4Surrogate_take]
    intro hmem
    rcases List.mem_append.1 hmem with hm | hm
    · rcases List.mem_replicate.1 hm with ⟨_, habs⟩
      rw [periodU] at habs
      omega
    · rw [periodU] at hm
      rcases List.mem_cons.1 hm with habs | habs
      · omega
      · rcases habs
  rw [truncateContent_of_none (by rw [cex4Surrogate_length]; norm_num [MAX_CONTENT_LENGTH])
    (lastIndexOf_eq_none_of_notMem hnomem)]
  exact cex4Surrogate_take

theorem cex4Boundary_length : cex4Boundary.length = 50001 := by
  rw [cex4Boundary, List.length_append, List.length_replicate, List.length_cons,
    List.length_replicate]

theorem cex4Boundary_take :
    cex4Boundary.take MAX_CONTENT_LENGTH
      = List.replicate 49500 97 ++ (periodU :: List.replicate 499 97) := by
  rw [cex4Boundary, List.take_append_eq_append_take, List.take_replicate, List.length_replicate]
  rw [show MAX_CONTENT_LENGTH - 49500 = 499 + 1 from by norm_num [MAX_CONTENT_LENGTH]]
  rw [List.take_succ_cons, List.take_replicate]
  norm_num [MAX_CONTENT_LENGTH]

theorem periodU_notMem_rep {n : Nat} : periodU ∉ List.replicate n (97:Nat) := by
  intro hm
  rcases List.mem_replicate.1 hm with ⟨_, habs⟩
  rw [periodU] at habs
  omega

theorem cex4Boundary_lastPeriod :
    lastIndexOf (cex4Boundary.take MAX_CONTENT_LENGTH) periodU = some 49500 := by
  rw [cex4Boundary_take, lastIndexOf_append]
  rw [show lastIndexOf (periodU :: List.replicate 499 97) periodU
      = (match lastIndexOf (List.replicate 499 97) periodU with
        | some i => some (i + 1)
        | none => if periodU == periodU then some 0 else none) from rfl]
  rw [lastIndexOf_eq_none_of_notMem periodU_notMem_rep]
  rw [List.length_replicate]
  rw [if_pos (by rfl)]

theorem cex4Boundary_truncate :
    truncateContent cex4Boundary
      = List.replicate 49500 97 ++ (periodU :: List.replicate 499 97) := by
  rw [truncateContent_of_some_le
    (by rw [cex4Boundary_length]; norm_num [MAX_CONTENT_LENGTH])
    cex4Boundary_lastPeriod
    (by norm_num [MAX_CONTENT_LENGTH])]
  exact cex4Boundary_take

theorem cex4Surrogate_cut_getLast :
    (List.replicate 49999 (97:Nat) ++ [0xD83D]).getLast? = some 0xD83D := by
  rw [List.getLast?_append]
  rfl

theorem cex4Surrogate_cut_length :
    (List.replicate 49999 (97:Nat) ++ [0xD83D]).length = 50000 := by
  rw [List.length_append, List.length_replicate, List.length_cons, List.length_nil]

theorem cex4Surrogate_next_unit : cex4Surrogate[(50000:Nat)]? = some 0xDE00 := by
  rw [cex4Surrogate, List.getElem?_append_right (by rw [List.length_replicate]; omega)]
  rw [List.length_replicate]
  rfl

theorem splitsSurrogatePair_intro (orig res : JSString) (hi lo : Nat)
    (h1 : res.getLast? = some hi) (h2 : orig[res.length]? = some lo)
    (h3 : isHighSurrogate hi = true) (h4 : isLowSurrogate lo = true) :
    splitsSurrogatePair orig res = true := by
  unfold splitsSurrogatePair
  rw [h1, h2]
  show (isHighSurrogate hi && isLowSurrogate lo) = true
  rw [h3, h4]
  rfl

theorem cex4Boundary_result_getLast :
    (truncateContent cex4Boundary).getLast? = some 97 := by
  rw [cex4Boundary_truncate, List.getLast?_append]
  have h499 : (periodU :: List.replicate 499 (97:Nat)).getLast? = some 97 := by
    rw [show (499:Nat) = 498 + 1 from rfl, List.replicate_succ']
    rw [show periodU :: (List.replicate 498 (97:Nat) ++ [97])
        = (periodU :: List.replicate 498 97) ++ [97] from rfl]
    rw [List.getLast?_append]
    rfl
  rw [h499]
  rfl

theorem claim_C4_counterexample :
    splitsSurrogatePair cex4Surrogate (truncateContent cex4Surrogate) = true
    ∧ lastIndexOf (cex4Boundary.take MAX_CONTENT_LENGTH) periodU = some 49500
    ∧ MAX_CONTENT_LENGTH - 500 ≤ 49500
    ∧ (truncateContent cex4Boundary).getLast? ≠ some periodU := by
  refine ⟨?_, cex4Boundary_lastPeriod, by norm_num [MAX_CONTENT_LENGTH], ?_⟩
  · rw [cex4Surrogate_truncate]
    refine splitsSurrogatePair_intro _ _ 0xD83D 0xDE00 cex4Surrogate_cut_getLast ?_
      (by decide) (by decide)
    rw [cex4Surrogate_cut_length]
    exact cex4Surrogate_next_unit
  · rw [cex4Boundary_result_getLast]
    rw [periodU]
    intro habs
    simp at habs

theorem claim_C4_truncation_amended (s : JSString) (h : MAX_CONTENT_LENGTH < s.length) :
    (∃ i, (s.take MAX_CONTENT_LENGTH)[i]? = some periodU
        ∧ MAX_CONTENT_LENGTH - 500 < i
        ∧ (∀ j, i < j → j < (s.take MAX_CONTENT_LENGTH).length →
            (s.take MAX_CONTENT_LENGTH)[j]? ≠ some periodU)
        ∧ truncateContent s = (s.take MAX_CONTENT_LENGTH).take (i + 1))
    ∨ ((∀ i, MAX_CONTENT_LENGTH - 500 < i → (s.take MAX_CONTENT_LENGTH)[i]? ≠ some periodU)
        ∧ truncateContent s = s.take MAX_CONTENT_LENGTH) := by
  rcases hli : lastIndexOf (s.take MAX_CONTENT_LENGTH) periodU with _ | i
  · right
    refine ⟨?_, truncateContent_of_none h hli⟩
    intro i _ hget
    exact notMem_of_lastIndexOf_eq_none hli (List.getElem?_mem hget)
  · obtain ⟨hget, hafter⟩ := lastIndexOf_some_spec hli
    by_cases hgt : MAX_CONTENT_LENGTH - 500 < i
    · left
      exact ⟨i, hget, hgt, hafter, truncateContent_of_some_gt h hli hgt⟩
    · right
      refine ⟨?_, truncateContent_of_some_le h hli (by omega)⟩
      intro k hk hgetk
      by_cases hklen : k < (s.take MAX_CONTENT_LENGTH).length
      · exact hafter k (by omega) hklen hgetk
      · rw [List.getElem?_eq_none (by omega)] at hgetk
        exact absurd hgetk (by simp)

theorem claim_C4_truncation_amended_witness :
    MAX_CONTENT_LENGTH < (List.replicate 50001 periodU).length
    ∧ ((∃ i, ((List.replicate 50001 periodU).take MAX_CONTENT_LENGTH)[i]? = some periodU
        ∧ MAX_CONTENT_LENGTH - 500 < i
        ∧ (∀ j, i < j → j < ((List.replicate 50001 periodU).take MAX_CONTENT_LENGTH).length →
            ((List.replicate 50001 periodU).take MAX_CONTENT_LENGTH)[j]? ≠ some periodU)
        ∧ truncateContent (List.replicate 50001 periodU)
            = ((List.replicate 50001 periodU).take MAX_CONTENT_LENGTH).take (i + 1))
      ∨ ((∀ i, MAX_CONTENT_LENGTH - 500 < i →
            ((List.replicate 50001 periodU).take MAX_CONTENT_LENGTH)[i]? ≠ some periodU)
        ∧ truncateContent (List.replicate 50001 periodU)
            = (List.replicate 50001 periodU).take MAX_CONTENT_LENGTH)) :=
  ⟨by rw [List.length_replicate]; norm_num [MAX_CONTENT_LENGTH],
   claim_C4_truncation_amended _ (by rw [List.length_replicate]; norm_num [MAX_CONTENT_LENGTH])⟩

theorem claim_C8_whitespace_normalization :
    cleanWhitespace (jstr "  Hello   world\n\n\n\nBye ") = jstr "Hello world\nBye"
    ∧ (∀ l : JSString, tabU ∉ cleanWhitespace l)
    ∧ (∀ l : JSString, crU ∉ cleanWhitespace l)
    ∧ (∀ l : JSString, List.Chain' notBothSpaces (cleanWhitespace l))
    ∧ (∀ l : JSString, cleanWhitespace l = []
        ∨ ∀ p ∈ List.splitOn lfU (cleanWhitespace l), p ≠ [] ∧ trimJs p = p) :=
  ⟨by decide, tab_notMem_cleanWhitespace, cr_notMem_cleanWhitespace,
   chain_cleanWhitespace, cleanWhitespace_lines⟩

theorem claim_C8_whitespace_normalization_witness :
    jstr "Hello world" ∈ List.splitOn lfU (cleanWhitespace (jstr "  Hello   world\n\n\n\nBye "))
    ∧ jstr "Hello world" ≠ [] ∧ trimJs (jstr "Hello world") = jstr "Hello world" := by
  rcases claim_C8_whitespace_normalization.2.2.2.2 (jstr "  Hello   world\n\n\n\nBye ") with h | h
  · exact absurd h (by decide)
  · exact ⟨by decide, by decide, (h (jstr "Hello world") (by decide)).2⟩

/-- CONFIG.RETRY_ATTEMPTS of sidepanel.js. -/
def RETRY_ATTEMPTS : Nat := 3

/-- CONFIG.RETRY_DELAY of sidepanel.js, in milliseconds. -/
def RETRY_DELAY : Nat := 1000

/-- What one fetch attempt inside apiRequest can produce: a transport-level
failure before any response, a response with a non-success status (carrying
the parsed error-body message when one was parsed and non-empty), or a
success body. -/
inductive AttemptResult where
  | transportFail (msg : String)
  | httpError (status : Nat) (errMsg : Option String)
  | success (body : String)
deriving DecidableEq, Repr

/-- JS `String.prototype.includes`. -/
def strIncludes (hay needle : String) : Bool :=
  decide (needle.data <:+: hay.data)

/-- The message of the Error thrown for a failed attempt (sidepanel.js line
363: `errorData.error?.message || API error: status`; the empty string is
falsy in JS and falls back to the default). -/
def thrownMessage : AttemptResult → Option String
  | .transportFail m => some m
  | .httpError st m? => some
      (match m? with
      | some m => if m.isEmpty then "API error: " ++ toString st else m
      | none => "API error: " ++ toString st)
  | .success _ => none

/-- The retry test of sidepanel.js line 368:
`attempt < retries && !error.message.includes('API error')`; this is the
message half. -/
def isRetryableErr (msg : String) : Bool :=
  !(strIncludes msg "API error")

/-- Observable result of one apiRequest call: its outcome, how many fetch
attempts were made, and the sleep durations between consecutive attempts. -/
structure ApiRun where
  result : Except String String
  fetches : Nat
  delays : List Nat
deriving Repr

/-- The attempt loop of apiRequest (sidepanel.js lines 357-375). `remaining`
counts the attempts still allowed after the current one, so the loop starts
at `remaining = retries` and the source guard `attempt < retries` is
`remaining > 0`. -/
def apiRequestLoop (outcomes : Nat → AttemptResult) (attempt remaining : Nat) : ApiRun :=
  match remaining, outcomes attempt with
  | _, .success body => { result := .ok body, fetches := 1, delays := [] }
  | 0, r => { result := .error ((thrownMessage r).getD ""), fetches := 1, delays := [] }
  | rem + 1, r =>
    let msg := (thrownMessage r).getD ""
    if isRetryableErr msg then
      let rest := apiRequestLoop outcomes (attempt + 1) rem
      { result := rest.result, fetches := rest.fetches + 1,
        delays := RETRY_DELAY * (attempt + 1) :: rest.delays }
    else { result := .error msg, fetches := 1, delays := [] }

/-- apiRequest (sidepanel.js lines 336-376) with the default retry count;
the backend is modelled by the outcome of each fetch attempt. -/
def apiRequest (outcomes : Nat → AttemptResult) : ApiRun :=
  apiRequestLoop outcomes 0 RETRY_ATTEMPTS

/-- Whether the loop would retry after this attempt outcome: a non-success
whose thrown message does not contain the text API error. -/
def attemptRetried : AttemptResult → Bool
  | .success _ => false
  | r => isRetryableErr ((thrownMessage r).getD "")

theorem attemptRetried_of_not_success {r : AttemptResult}
    (h : ∀ body, r ≠ .success body) :
    attemptRetried r = isRetryableErr ((thrownMessage r).getD "") := by
  cases r with
  | transportFail m => rfl
  | httpError st m? => rfl
  | success b => exact absurd rfl (h b)

theorem apiRequestLoop_spec (outcomes : Nat → AttemptResult) :
    ∀ (remaining attempt : Nat),
    1 ≤ (apiRequestLoop outcomes attempt remaining).fetches
    ∧ (apiRequestLoop outcomes attempt remaining).fetches ≤ remaining + 1
    ∧ (apiRequestLoop outcomes attempt remaining).delays
        = (List.range ((apiRequestLoop outcomes attempt remaining).fetches - 1)).map
            (fun a => RETRY_DELAY * (attempt + a + 1))
    ∧ (∀ a, a + 1 < (apiRequestLoop outcomes attempt remaining).fetches →
        attemptRetried (outcomes (attempt + a)) = true)
    ∧ ((apiRequestLoop outcomes attempt remaining).fetches ≤ remaining →
        attemptRetried (outcomes (attempt + (apiRequestLoop outcomes attempt remaining).fetches - 1))
          = false) := by
  intro remaining
  induction remaining with
  | zero =>
    intro attempt
    rcases hout : outcomes attempt with m | ⟨st, m?⟩ | body
    all_goals (
      rw [apiRequestLoop.eq_def, hout]
      dsimp only
      refine ⟨le_refl 1, by omega, by simp, ?_, ?_⟩
      · intro a ha
        omega
      · intro habs
        omega)
  | succ rem ih =>
    intro attempt
    rcases hout : outcomes attempt with m | ⟨st, m?⟩ | body
    case success =>
      rw [apiRequestLoop.eq_def, hout]
      dsimp only
      refine ⟨le_refl 1, by omega, by simp, ?_, ?_⟩
      · intro a ha
        omega
      · intro _
        have h1 : attempt + 1 - 1 = attempt := by omega
        rw [h1, hout]
        rfl
    all_goals (
      (have hns : ∀ body, outcomes attempt ≠ .success body := by rw [hout]; intro b h; cases h)
      rcases hretry : isRetryableErr ((thrownMessage (outcomes attempt)).getD "") with _ | _
      all_goals rw [hout] at hretry
      · rw [apiRequestLoop.eq_def, hout]
        dsimp only
        rw [if_neg (by rw [hretry]; simp)]
        dsimp only
        refine ⟨le_refl 1, by omega, by simp, ?_, ?_⟩
        · intro a ha
          omega
        · intro _
          have h1 : attempt + 1 - 1 = attempt := by omega
          rw [h1, attemptRetried_of_not_success hns, hout, hretry]
      · obtain ⟨ih1, ih2, ih3, ih4, ih5⟩ := ih (attempt + 1)
        rw [apiRequestLoop.eq_def, hout]
        dsimp only
        rw [if_pos hretry]
        dsimp only
        refine ⟨by omega, by omega, ?_, ?_, ?_⟩
        · rw [ih3]
          rw [show (apiRequestLoop outcomes (attempt + 1) rem).fetches + 1 - 1
            = ((apiRequestLoop outcomes (attempt + 1) rem).fetches - 1) + 1 from by omega]
          rw [List.range_succ_eq_map, List.map_cons, List.map_map]
          simp only [List.cons.injEq, Nat.add_zero]
          refine ⟨trivial, ?_⟩
          apply List.map_congr_left
          intro a _
          show RETRY_DELAY * (attempt + 1 + a + 1) = RETRY_DELAY * (attempt + (a + 1) + 1)
          rw [show attempt + 1 + a + 1 = attempt + (a + 1) + 1 from by omega]
        · intro a ha
          rcases a with _ | a2
          · rw [Nat.add_zero, attemptRetried_of_not_success hns, hout, hretry]
          · have h2 := ih4 a2 (by omega)
            rw [show attempt + (a2 + 1) = attempt + 1 + a2 from by omega]
            exact h2
        · intro hle
          have h3 := ih5 (by omega)
          rw [show attempt + ((apiRequestLoop outcomes (attempt + 1) rem).fetches + 1) - 1
            = attempt + 1 + (apiRequestLoop outcomes (attempt + 1) rem).fetches - 1 from by omega]
          exact h3)

theorem claim_C2_counterexample :
    ¬ ((apiRequest (fun _ => AttemptResult.transportFail "network down")).fetches ≤ 3)
    ∧ (apiRequest (fun _ => AttemptResult.transportFail "network down")).fetches = 4
    ∧ (apiRequest (fun _ => AttemptResult.httpError 400 (some "bad request"))).fetches = 4
    ∧ (apiRequest (fun _ => AttemptResult.httpError 400 none)).fetches = 1 := by
  refine ⟨by decide, by decide, by decide, by decide⟩

theorem claim_C2_retry_amended (outcomes : Nat → AttemptResult) :
    1 ≤ (apiRequest outcomes).fetches
    ∧ (apiRequest outcomes).fetches ≤ RETRY_ATTEMPTS + 1
    ∧ (apiRequest outcomes).delays
        = (List.range ((apiRequest outcomes).fetches - 1)).map (fun a => RETRY_DELAY * (a + 1))
    ∧ (∀ a, a + 1 < (apiRequest outcomes).fetches → attemptRetried (outcomes a) = true)
    ∧ ((apiRequest outcomes).fetches ≤ RETRY_ATTEMPTS →
        attemptRetried (outcomes ((apiRequest outcomes).fetches - 1)) = false) := by
  unfold apiRequest
  obtain ⟨h1, h2, h3, h4, h5⟩ := apiRequestLoop_spec outcomes RETRY_ATTEMPTS 0
  refine ⟨h1, h2, ?_, ?_, ?_⟩
  · rw [h3]
    apply List.map_congr_left
    intro a _
    rw [Nat.zero_add]
  · intro a ha
    have h6 := h4 a ha
    rwa [Nat.zero_add] at h6
  · intro hle
    have h7 := h5 hle
    rwa [Nat.zero_add] at h7

/-- A backend that answers the first request successfully. -/
def witOutcomes : Nat → AttemptResult := fun _ => AttemptResult.success "ok"

theorem claim_C2_retry_amended_witness :
    1 ≤ (apiRequest witOutcomes).fetches
    ∧ (apiRequest witOutcomes).fetches ≤ RETRY_ATTEMPTS + 1
    ∧ (apiRequest witOutcomes).delays
        = (List.range ((apiRequest witOutcomes).fetches - 1)).map (fun a => RETRY_DELAY * (a + 1))
    ∧ (∀ a, a + 1 < (apiRequest witOutcomes).fetches → attemptRetried (witOutcomes a) = true)
    ∧ ((apiRequest witOutcomes).fetches ≤ RETRY_ATTEMPTS →
        attemptRetried (witOutcomes ((apiRequest witOutcomes).fetches - 1)) = false) :=
  claim_C2_retry_amended witOutcomes

/-- One entry of the MessageLog (ISO timestamps are not modelled). -/
structure ChatMsg where
  role : String
  content : String
deriving DecidableEq, Repr

/-- One rendered message element of the chat DOM, recorded by its css class
and the source text handed to it (the HTML formatting applied by
formatMessageContent is presentation-only and not modelled). -/
structure DomMsg where
  cssClass : String
  content : String
deriving DecidableEq, Repr

/-- The sidepanel state object of sidepanel.js plus the rendered message
list and the persisted copy of the MessageLog. -/
structure PanelState where
  contentId : Option String
  assistantId : Option String
  threadId : Option String
  currentPageUrl : Option String
  currentPageTitle : Option String
  messages : List ChatMsg
  storedMessages : List ChatMsg
  dom : List DomMsg
  inputValue : String
  isProcessing : Bool
  isInitialized : Bool
  status : String
deriving DecidableEq, Repr

/-- addMessage (sidepanel.js lines 554-578): append a DOM element with class
`message role`, push the entry onto state.messages, persist via saveMessages. -/
def addMessage (st : PanelState) (role content : String) : PanelState :=
  let messages := st.messages ++ [{ role := role, content := content }]
  { st with
    dom := st.dom ++ [{ cssClass := "message " ++ role, content := content }],
    messages := messages,
    storedMessages := messages }

/-- createStreamingMessage (sidepanel.js lines 512-528): append an empty
element with class `message assistant streaming`. -/
def createStreamingMessage (st : PanelState) : PanelState :=
  { st with dom := st.dom ++ [{ cssClass := "message assistant streaming", content := "" }] }

/-- Apply an update to the last rendered element; during one send this is
always the streaming element the source keeps a reference to. -/
def setLastDom : List DomMsg → (DomMsg → DomMsg) → List DomMsg
  | [], _ => []
  | [d], f => [f d]
  | d :: ds, f => d :: setLastDom ds f

/-- updateStreamingMessage (sidepanel.js lines 533-538). -/
def updateStreamingMessage (st : PanelState) (content : String) : PanelState :=
  { st with dom := setLastDom st.dom (fun d => { d with content := content }) }

/-- finalizeStreamingMessage (sidepanel.js lines 543-549): drop the streaming
class and set the final content. -/
def finalizeStreamingMessage (st : PanelState) (content : String) : PanelState :=
  { st with dom :=
      setLastDom st.dom (fun _ => { cssClass := "message assistant", content := content }) }

/-- The JSON payload of one `data: ` line, as JSON.parse plus the type field
dispatch sees it. -/
inductive Frame where
  | text (content : String)
  | done
  | error (content : String)
  | other
deriving DecidableEq, Repr

/-- One line of a decoded network chunk: a `data: ` line whose JSON either
parses to a frame or fails to parse, or any other line. -/
inductive StreamLine where
  | data (parsed : Option Frame)
  | plain
deriving DecidableEq, Repr

/-- The accumulator of the stream loop: fullResponse and the panel state. -/
structure StreamAcc where
  fullResponse : String
  st : PanelState
deriving DecidableEq, Repr

/-- The try block of the stream loop (sidepanel.js lines 463-483): parse the
JSON, then dispatch on the frame type; a parse failure and the `throw new
Error(data.content)` of an error frame both leave as exceptions. -/
def streamTryBlock (acc : StreamAcc) (parsed : Option Frame) : Except String StreamAcc :=
  match parsed with
  | none => .error "parse error"
  | some (.text c) =>
    let full := acc.fullResponse ++ c
    .ok { fullResponse := full, st := updateStreamingMessage acc.st full }
  | some .done =>
    let st1 := finalizeStreamingMessage acc.st acc.fullResponse
    let messages := st1.messages ++ [{ role := "assistant", content := acc.fullResponse }]
    .ok { fullResponse := acc.fullResponse,
          st := { st1 with messages := messages, storedMessages := messages } }
  | some (.error c) => .error c
  | some .other => .ok acc

/-- One line of the stream loop (sidepanel.js lines 461-488): non-data lines
are skipped; for data lines the catch block swallows every exception of the
try block, the thrown error-frame Error included. -/
def streamLineStep (acc : StreamAcc) (line : StreamLine) : StreamAcc :=
  match line with
  | .plain => acc
  | .data parsed =>
    match streamTryBlock acc parsed with
    | .ok acc2 => acc2
    | .error _ => acc

/-- The read loop of sendMessage (sidepanel.js lines 454-489): each network
read yields a chunk that is split into lines and processed in order. -/
def processStream (acc : StreamAcc) (chunks : List (List StreamLine)) : StreamAcc :=
  chunks.foldl (fun a chunk => chunk.foldl streamLineStep a) acc

/-- What the fetch of the stream endpoint produced: a rejected promise, or a
response with its ok flag, the error message a non-ok body yields, and the
decoded chunks of the body stream. -/
inductive FetchOutcome where
  | networkError (msg : String)
  | resp (ok : Bool) (errMsg : String) (chunks : List (List StreamLine))
deriving DecidableEq, Repr

/-- An outbound request sendMessage can issue. -/
inductive Effect where
  | chatStreamRequest (threadId : String) (message : String) (contentId : Option String)
deriving DecidableEq, Repr

/-- The JS whitespace test on characters, mirroring isJsSpace. -/
def isJsSpaceChar (c : Char) : Bool :=
  c == ' ' || c == '\t' || c == '\n' || c == '\r' || c.toNat == 11 || c.toNat == 12 || c.toNat == 160

/-- JS String.prototype.trim over Lean strings. -/
def jsTrim (s : String) : String :=
  String.mk (((s.data.dropWhile isJsSpaceChar).reverse.dropWhile isJsSpaceChar).reverse)

/-- The catch block of sendMessage (sidepanel.js lines 493-503): remove the
streaming element, append an error entry, set the error status. -/
def sendMessageCatch (st : PanelState) (errMsg : String) : PanelState :=
  let st1 := { st with dom := st.dom.dropLast }
  let st2 := addMessage st1 "error" ("Error: " ++ errMsg)
  { st2 with status := "error" }

/-- sendMessage (sidepanel.js lines 381-507). The network is modelled by the
fetch outcome; the returned effect list records the issued stream request. -/
def sendMessage (st : PanelState) (fetch : FetchOutcome) : PanelState × List Effect :=
  let message := jsTrim st.inputValue
  if message == "" || st.isProcessing || !st.isInitialized then (st, [])
  else
    match st.threadId with
    | none => (st, [])
    | some tid =>
      let st1 := { st with inputValue := "" }
      let st2 := addMessage st1 "user" message
      let st3 := { st2 with isProcessing := true, status := "processing" }
      let st4 := createStreamingMessage st3
      let final :=
        match fetch with
        | .networkError m => sendMessageCatch st4 m
        | .resp ok errMsg chunks =>
          if !ok then sendMessageCatch st4 errMsg
          else
            let acc := processStream { fullResponse := "", st := st4 } chunks
            { acc.st with status := "connected" }
      ({ final with isProcessing := false },
       [Effect.chatStreamRequest tid message st.contentId])

/-- A ready session state about to send the message `hi`, with an error
frame arriving as the only stream line. -/
def c1State : PanelState :=
  { contentId := some "c1", assistantId := some "a1", threadId := some "t1",
    currentPageUrl := some "https://example.com", currentPageTitle := some "Example",
    messages := [], storedMessages := [], dom := [], inputValue := "hi",
    isProcessing := false, isInitialized := true, status := "connected" }

/-- A successful fetch whose stream carries one well-formed error frame. -/
def c1Fetch : FetchOutcome :=
  .resp true "" [[.data (some (.error "boom"))]]

/-- C1: evaluating sendMessage at a stream consisting of one well-formed
error frame. The partially-rendered streaming element is NOT removed (it
stays in the DOM with the streaming class), no error entry is appended to
the conversation, and the panel finishes in the connected state: the thrown
stream error is swallowed by the inner catch meant for parse errors. -/
theorem claim_C1_error_frame_not_surfaced :
    (sendMessage c1State c1Fetch).1.dom
      = [{ cssClass := "message user", content := "hi" },
         { cssClass := "message assistant streaming", content := "" }]
    ∧ (sendMessage c1State c1Fetch).1.messages = [{ role := "user", content := "hi" }]
    ∧ (sendMessage c1State c1Fetch).1.status = "connected" := by
  refine ⟨by decide, by decide, by decide⟩

/-- C6: while isProcessing is true, sendMessage is a no-op: the state is
returned unchanged and no request is issued. -/
theorem claim_C6_processing_guard (st : PanelState) (fetch : FetchOutcome)
    (h : st.isProcessing = true) :
    sendMessage st fetch = (st, []) := by
  unfold sendMessage
  rw [h]
  simp

/-- A ready panel state used by guard witnesses. -/
def sampleReadyState : PanelState :=
  { contentId := some "c9", assistantId := some "a9", threadId := some "t9",
    currentPageUrl := some "https://example.org", currentPageTitle := some "Sample",
    messages := [], storedMessages := [], dom := [], inputValue := "Summarize",
    isProcessing := false, isInitialized := true, status := "connected" }

/-- Witness for C6: a busy session ignores a submit. -/
theorem claim_C6_processing_guard_witness :
    ({ sampleReadyState with isProcessing := true } : PanelState).isProcessing = true
    ∧ sendMessage { sampleReadyState with isProcessing := true } (.networkError "n")
        = ({ sampleReadyState with isProcessing := true }, []) :=
  ⟨rfl, claim_C6_processing_guard { sampleReadyState with isProcessing := true }
    (.networkError "n") rfl⟩

/-- C9: any invocation that passes the submit guard finishes with
isProcessing false, on the success path, the failed-request path and the
thrown-exception path alike. -/
theorem claim_C9_processing_cleared (st : PanelState) (fetch : FetchOutcome)
    (h1 : (jsTrim st.inputValue == "") = false)
    (h2 : st.isProcessing = false)
    (h3 : st.isInitialized = true) :
    (sendMessage st fetch).1.isProcessing = false := by
  unfold sendMessage
  dsimp only
  rw [h1, h2, h3]
  simp only [Bool.false_or, Bool.or_false, Bool.not_true]
  rw [if_neg (by simp)]
  rcases st.threadId with _ | tid
  · exact h2
  · rcases fetch with m | ⟨ok, errMsg, chunks⟩ <;> rfl

/-- Witness for C9: a concrete guarded send ends with isProcessing false. -/
theorem claim_C9_processing_cleared_witness :
    (jsTrim sampleReadyState.inputValue == "") = false
    ∧ sampleReadyState.isProcessing = false
    ∧ sampleReadyState.isInitialized = true
    ∧ (sendMessage sampleReadyState (.networkError "offline")).1.isProcessing = false :=
  ⟨by decide, rfl, rfl,
   claim_C9_processing_cleared sampleReadyState (.networkError "offline") (by decide) rfl rfl⟩

/-- A per-page Session as persisted under the session key. -/
structure Session where
  contentId : String
  assistantId : String
  threadId : String
  createdAt : Nat
deriving DecidableEq, Repr

/-- Backend requests initializeForCurrentPage can issue. -/
inductive InitEffect where
  | storeContentRequest
  | createAssistantRequest
deriving DecidableEq, Repr

/-- loadMessages (sidepanel.js lines 623-658): when a non-empty MessageLog is
stored for the page, restore it into state and render every entry. -/
def loadMessages (st : PanelState) (stored : Option (List ChatMsg)) : PanelState :=
  match stored with
  | some msgs =>
    if msgs.length > 0 then
      { st with
        messages := msgs,
        dom := msgs.map (fun m => { cssClass := "message " ++ m.role, content := m.content }) }
    else st
  | none => st

/-- initializeForCurrentPage (sidepanel.js lines 224-315). The tab query, the
storage lookups under the hashed session and messages keys, the extracted
page content and the two backend responses are parameters; the effect list
records which backend requests were issued. -/
def initializeForCurrentPage (st : PanelState) (tab : Option (String × String))
    (storedSession : Option Session) (storedMsgs : Option (List ChatMsg))
    (pageContent : Option PageData)
    (storeResult : Except String String)
    (assistResult : Except String (String × String)) : PanelState × List InitEffect :=
  match tab with
  | none => ({ st with status := "error" }, [])
  | some (url, title) =>
    if url == "" || jsStartsWith url "chrome://" then ({ st with status := "error" }, [])
    else
      let st1 := { st with
                   currentPageUrl := some url, currentPageTitle := some title,
                   contentId := none, assistantId := none, threadId := none,
                   messages := [], dom := [] }
      match storedSession with
      | some session =>
        let st2 := { st1 with
                     contentId := some session.contentId,
                     assistantId := some session.assistantId,
                     threadId := some session.threadId }
        let st3 := loadMessages st2 storedMsgs
        ({ st3 with status := "connected", isInitialized := true }, [])
      | none =>
        match pageContent with
        | none => ({ st1 with status := "error" }, [])
        | some _ =>
          match storeResult with
          | .error _ => ({ st1 with status := "error" }, [InitEffect.storeContentRequest])
          | .ok contentId =>
            match assistResult with
            | .error _ =>
              ({ st1 with contentId := some contentId, status := "error" },
               [InitEffect.storeContentRequest, InitEffect.createAssistantRequest])
            | .ok (assistantId, threadId) =>
              ({ st1 with
                  contentId := some contentId, assistantId := some assistantId,
                  threadId := some threadId, status := "connected", isInitialized := true },
               [InitEffect.storeContentRequest, InitEffect.createAssistantRequest])

/-- C7: when a Session is stored for the page, initialization restores its
contentId, assistantId and threadId and the persisted message history, and
issues no store-content or create-assistant request. -/
theorem claim_C7_session_restore (st : PanelState) (url title : String)
    (session : Session) (storedMsgs : Option (List ChatMsg))
    (pageContent : Option PageData) (storeResult : Except String String)
    (assistResult : Except String (String × String))
    (hurl : (url == "" || jsStartsWith url "chrome://") = false) :
    (initializeForCurrentPage st (some (url, title)) (some session) storedMsgs
        pageContent storeResult assistResult).1.contentId = some session.contentId
    ∧ (initializeForCurrentPage st (some (url, title)) (some session) storedMsgs
        pageContent storeResult assistResult).1.assistantId = some session.assistantId
    ∧ (initializeForCurrentPage st (some (url, title)) (some session) storedMsgs
        pageContent storeResult assistResult).1.threadId = some session.threadId
    ∧ (initializeForCurrentPage st (some (url, title)) (some session) storedMsgs
        pageContent storeResult assistResult).1.messages = storedMsgs.getD []
    ∧ (initializeForCurrentPage st (some (url, title)) (some session) storedMsgs
        pageContent storeResult assistResult).2 = [] := by
  unfold initializeForCurrentPage
  dsimp only
  rw [hurl]
  rw [if_neg (by simp)]
  rcases storedMsgs with _ | msgs
  · exact ⟨rfl, rfl, rfl, rfl, rfl⟩
  · unfold loadMessages
    dsimp only
    by_cases hlen : msgs.length > 0
    · rw [if_pos (by exact hlen)]
      exact ⟨rfl, rfl, rfl, rfl, rfl⟩
    · rw [if_neg (by exact hlen)]
      refine ⟨rfl, rfl, rfl, ?_, rfl⟩
      have hnil : msgs = [] := List.length_eq_zero.1 (by omega)
      rw [hnil]
      rfl

/-- Witness for C7: restoring a concrete stored session and message log. -/
theorem claim_C7_session_restore_witness :
    (("https://example.com" == "" || jsStartsWith "https://example.com" "chrome://") = false)
    ∧ (initializeForCurrentPage sampleReadyState (some ("https://example.com", "Example"))
        (some { contentId := "cs", assistantId := "as", threadId := "ts", createdAt := 0 })
        (some [{ role := "user", content := "hello" }]) none (.ok "x") (.ok ("y", "z"))).1.contentId
        = some "cs"
    ∧ (initializeForCurrentPage sampleReadyState (some ("https://example.com", "Example"))
        (some { contentId := "cs", assistantId := "as", threadId := "ts", createdAt := 0 })
        (some [{ role := "user", content := "hello" }]) none (.ok "x") (.ok ("y", "z"))).1.messages
        = [{ role := "user", content := "hello" }]
    ∧ (initializeForCurrentPage sampleReadyState (some ("https://example.com", "Example"))
        (some { contentId := "cs", assistantId := "as", threadId := "ts", createdAt := 0 })
        (some [{ role := "user", content := "hello" }]) none (.ok "x") (.ok ("y", "z"))).2
        = [] := by
  have h := claim_C7_session_restore sampleReadyState "https://example.com" "Example"
    { contentId := "cs", assistantId := "as", threadId := "ts", createdAt := 0 }
    (some [{ role := "user", content := "hello" }]) none (.ok "x") (.ok ("y", "z"))
    (by decide)
  exact ⟨by decide, h.1, h.2.2.2.1, h.2.2.2.2⟩

/-- MAX_STORED_PAGES from background.js. -/
def MAX_STORED_PAGES : Nat := 50

/-- One entry of the extractedContent map: its key (the exact page URL), the
extractedAt stamp (modelled as a comparable tick), and the remaining
PageRecord fields, irrelevant to eviction, as an opaque payload. The map
itself is the list of entries in object-key insertion order. -/
structure StoredPage where
  url : String
  extractedAt : Nat
  payload : String
deriving DecidableEq, Repr

/-- The write `content[data.url] = {...}` of handleContentExtracted
(background.js line 133): overwrite in place when the key exists, else
append, as JS object keys do. -/
def mergeRecord (store : List StoredPage) (d : StoredPage) : List StoredPage :=
  if store.any (fun r => r.url == d.url) then
    store.map (fun r => if r.url == d.url then d else r)
  else store ++ [d]

/-- handleContentExtracted (background.js lines 124-161): merge the record
stamped with the current time, then if more than MAX_STORED_PAGES distinct
URLs are stored, sort the keys newest-first by extractedAt (the comparator
at line 143) and delete every key past the cap. -/
def handleContentExtracted (store : List StoredPage) (d : StoredPage) (now : Nat) :
    List StoredPage :=
  let merged := mergeRecord store { d with extractedAt := now }
  if merged.length > MAX_STORED_PAGES then
    let sorted := merged.mergeSort (fun a b => decide (b.extractedAt ≤ a.extractedAt))
    let doomed := (sorted.drop MAX_STORED_PAGES).map (fun r => r.url)
    merged.filter (fun r => !(doomed.contains r.url))
  else merged

theorem filter_notUrl_eq_erase (l : List StoredPage) (m : StoredPage)
    (hnodup : (l.map (fun r => r.url)).Nodup) (hmem : m ∈ l) :
    l.filter (fun r => !([m.url].contains r.url)) = l.erase m := by
  induction l with
  | nil => simp at hmem
  | cons h t ih =>
    rw [List.map_cons, List.nodup_cons] at hnodup
    obtain ⟨hhead, htail⟩ := hnodup
    rcases List.mem_cons.1 hmem with rfl | hmt
    · rw [List.filter_cons, List.erase_cons_head]
      rw [if_neg (by simp)]
      apply List.filter_eq_self.2
      intro r hr
      simp only [List.contains_cons, List.contains_nil, Bool.or_false, Bool.not_eq_true']
      rw [beq_eq_false_iff_ne]
      intro habs
      exact hhead (habs ▸ (List.mem_map.2 ⟨r, hr, rfl⟩))
    · have hne : h.url ≠ m.url := by
        intro habs
        exact hhead (habs ▸ (List.mem_map.2 ⟨m, hmt, rfl⟩))
      rw [List.filter_cons]
      rw [if_pos (by
        simp only [List.contains_cons, List.contains_nil, Bool.or_false, Bool.not_eq_true']
        rw [beq_eq_false_iff_ne]
        exact hne)]
      rw [List.erase_cons_tail (by
        simp only [beq_iff_eq]
        intro habs
        exact hne (congrArg StoredPage.url habs))]
      rw [ih htail hmt]

/-- C5: with 50 distinct URLs stored (with pairwise distinct extraction
stamps) and a 51st distinct URL arriving, exactly the entry with the oldest
extractedAt is evicted and the other 50 entries survive unchanged in order. -/
theorem claim_C5_eviction (store : List StoredPage) (d : StoredPage) (now : Nat)
    (hlen : store.length = 50)
    (hurls : ((store ++ [{ d with extractedAt := now }]).map (fun r : StoredPage => r.url)).Nodup)
    (htimes : ((store ++ [{ d with extractedAt := now }]).map
        (fun r : StoredPage => r.extractedAt)).Nodup) :
    ∃ oldest,
      oldest ∈ store ++ [{ d with extractedAt := now }]
      ∧ (∀ r ∈ store ++ [{ d with extractedAt := now }], r ≠ oldest →
          oldest.extractedAt < r.extractedAt)
      ∧ handleContentExtracted store d now
          = (store ++ [{ d with extractedAt := now }]).erase oldest
      ∧ (handleContentExtracted store d now).length = 50 := by
  have hnew : d.url ∉ store.map (fun r => r.url) := by
    intro habs
    rw [List.map_append] at hurls
    rcases (List.nodup_append.1 hurls) with ⟨_, _, hdisj⟩
    exact hdisj habs (by simp)
  have hmerge : mergeRecord store { d with extractedAt := now }
      = store ++ [{ d with extractedAt := now }] := by
    unfold mergeRecord
    rw [if_neg]
    intro habs
    rcases List.any_eq_true.1 habs with ⟨r, hr, hbeq⟩
    exact hnew (beq_iff_eq.1 hbeq ▸ List.mem_map.2 ⟨r, hr, rfl⟩)
  set stamped := ({ d with extractedAt := now } : StoredPage) with hstamped
  set merged := store ++ [stamped] with hmergedDef
  have hmlen : merged.length = 51 := by
    rw [hmergedDef, List.length_append, hlen]
    rfl
  set le := fun a b : StoredPage => decide (b.extractedAt ≤ a.extractedAt) with hle
  have hperm : (merged.mergeSort le).Perm merged := List.mergeSort_perm merged le
  have hsorted : List.Pairwise (fun a b => le a b = true) (merged.mergeSort le) := by
    apply List.sorted_mergeSort
    · intro a b c hab hbc
      rw [hle] at hab hbc ⊢
      simp only [decide_eq_true_eq] at hab hbc ⊢
      omega
    · intro a b
      rw [hle]
      simp only [Bool.or_eq_true, decide_eq_true_eq]
      exact Nat.le_total b.extractedAt a.extractedAt
  set sorted := merged.mergeSort le with hsortedDef
  have hslen : sorted.length = 51 := by
    rw [hperm.length_eq, hmlen]
  have hdlen : (sorted.drop MAX_STORED_PAGES).length = 1 := by
    rw [List.length_drop, hslen]
    rfl
  obtain ⟨m, hm⟩ := List.length_eq_one.1 hdlen
  have hmsorted : m ∈ sorted := List.drop_subset _ _ (by rw [hm]; simp)
  have hmmem : m ∈ merged := hperm.mem_iff.1 hmsorted
  have hmin : ∀ r ∈ merged, m.extractedAt ≤ r.extractedAt := by
    intro r hr
    have hrs : r ∈ sorted := hperm.mem_iff.2 hr
    rw [← List.take_append_drop MAX_STORED_PAGES sorted] at hrs
    rcases List.mem_append.1 hrs with hrt | hrd
    · have hpw := hsorted
      rw [← List.take_append_drop MAX_STORED_PAGES sorted] at hpw
      rcases List.pairwise_append.1 hpw with ⟨_, _, hcross⟩
      have := hcross r hrt m (by rw [hm]; simp)
      rw [hle] at this
      simpa using this
    · rw [hm] at hrd
      rcases List.mem_cons.1 hrd with rfl | habs
      · exact le_refl _
      · simp at habs
  have hstrict : ∀ r ∈ merged, r ≠ m → m.extractedAt < r.extractedAt := by
    intro r hr hne
    have hle2 := hmin r hr
    rcases Nat.lt_or_ge m.extractedAt r.extractedAt with h | h
    · exact h
    · have heq : r.extractedAt = m.extractedAt := by omega
      exact absurd (List.inj_on_of_nodup_map htimes hr hmmem heq) hne
  refine ⟨m, hmmem, hstrict, ?_, ?_⟩
  · unfold handleContentExtracted
    rw [hmerge]
    rw [if_pos (by rw [hmlen]; norm_num [MAX_STORED_PAGES])]
    rw [← hle, ← hsortedDef]
    dsimp only
    rw [hm]
    rw [show ([m].map (fun r : StoredPage => r.url)) = [m.url] from rfl]
    exact filter_notUrl_eq_erase merged m hurls hmmem
  · unfold handleContentExtracted
    rw [hmerge]
    rw [if_pos (by rw [hmlen]; norm_num [MAX_STORED_PAGES])]
    rw [← hle, ← hsortedDef]
    dsimp only
    rw [hm]
    rw [show ([m].map (fun r : StoredPage => r.url)) = [m.url] from rfl]
    rw [filter_notUrl_eq_erase merged m hurls hmmem]
    rw [List.length_erase_of_mem hmmem, hmlen]

/-- A store of 50 distinct URLs with distinct extraction stamps. -/
def store50 : List StoredPage :=
  (List.range 50).map (fun i => { url := String.mk [Char.ofNat (65 + i)], extractedAt := i + 1, payload := "" })

/-- The arriving 51st record. -/
def newPage : StoredPage := { url := "new", extractedAt := 0, payload := "" }

/-- Witness for C5: the hypotheses hold at a concrete 50-entry store and a
concrete 51st record, so the eviction conclusion holds there. -/
theorem claim_C5_eviction_witness :
    store50.length = 50
    ∧ ((store50 ++ [{ newPage with extractedAt := 1000 }]).map (fun r : StoredPage => r.url)).Nodup
    ∧ ((store50 ++ [{ newPage with extractedAt := 1000 }]).map
        (fun r : StoredPage => r.extractedAt)).Nodup
    ∧ (∃ oldest,
        oldest ∈ store50 ++ [{ newPage with extractedAt := 1000 }]
        ∧ (∀ r ∈ store50 ++ [{ newPage with extractedAt := 1000 }], r ≠ oldest →
            oldest.extractedAt < r.extractedAt)
        ∧ handleContentExtracted store50 newPage 1000
            = (store50 ++ [{ newPage with extractedAt := 1000 }]).erase oldest
        ∧ (handleContentExtracted store50 newPage 1000).length = 50) :=
  ⟨by decide, by decide, by decide,
   claim_C5_eviction store50 newPage 1000 (by decide) (by decide) (by decide)⟩
